import Mathlib

/-!
Verification of the JSON graph-view subsystem (`src/components/JsonTreeView.tsx`)
of the json-forge repository, against its natural-language specification.

The embedding follows the source component: the value classifier
(`getDataType`), the path builder (`getChildPath`), the initial expansion
pass with its shared mutable budget and per-node pagination (`GraphNode`),
the per-node toggle / bulk expand-collapse state machine, the search match
predicate (`isMatch`), the viewport controller (`handleWheel`,
`handleZoomIn/Out`, `handleReset`, `handleFitScreen`, `focusNode`, panning)
and the cyclic search-match navigation (`findAndFocusMatch`).
Machine floats are modelled by exact rationals.
-/

namespace JsonForge

/-- The `DataType` string union of the source
(`'string' | 'number' | 'boolean' | 'object' | 'array' | 'null'`). -/
inductive DataType where
  | str
  | num
  | boolean
  | object
  | array
  | null
deriving DecidableEq, Repr

/-! ## Path Builder (`getChildPath`, lines 65-73) -/

/-- First-character test of the identifier regex `[a-zA-Z_$]`. -/
def isIdentStart (c : Char) : Bool :=
  (('a' ≤ c && c ≤ 'z') || ('A' ≤ c && c ≤ 'Z')) || c = '_' || c = '$'

/-- Continuation-character test of the identifier regex `[a-zA-Z0-9_$]`. -/
def isIdentChar (c : Char) : Bool :=
  isIdentStart c || ('0' ≤ c && c ≤ '9')

/-- The test `/^[a-zA-Z_$][a-zA-Z0-9_$]*$/.test(key)` of the source. -/
def isIdentifier (s : String) : Bool :=
  match s.data with
  | [] => false
  | c :: cs => isIdentStart c && cs.all isIdentChar

/-- `key.replace(/"/g, '\\"')`: replace every `"` by the two characters
`\"`; in particular a backslash in the key is left untouched. -/
def escapeQuotesList : List Char → List Char
  | [] => []
  | c :: rest =>
      if c = '"' then '\\' :: '"' :: escapeQuotesList rest
      else c :: escapeQuotesList rest

/-- String form of `key.replace(/"/g, '\\"')`. -/
def escapeQuotes (s : String) : String :=
  ⟨escapeQuotesList s.data⟩

/-- `getChildPath` of the source: array parents get `parent[key]`;
object parents get `parent.key` for identifier keys and the bracket-quoted
form (escaping only `"`) otherwise. -/
def getChildPath (parentPath key : String) (parentType : DataType) : String :=
  if parentType = DataType.array then parentPath ++ "[" ++ key ++ "]"
  else if isIdentifier key then parentPath ++ "." ++ key
  else parentPath ++ "[\"" ++ escapeQuotes key ++ "\"]"

/-- Escaping as the spec words it: both `"` and `\` are escaped. Used only
to compare the source's behaviour against the spec sentence. -/
def specEscapeList : List Char → List Char
  | [] => []
  | c :: rest =>
      if c = '"' || c = '\\' then '\\' :: c :: specEscapeList rest
      else c :: specEscapeList rest

/-- Spec-worded object child path: identifier keys dotted, all other keys
bracket-quoted with both `"` and `\` escaped. -/
def specChildPathObject (parentPath key : String) : String :=
  if isIdentifier key then parentPath ++ "." ++ key
  else parentPath ++ "[\"" ++ String.mk (specEscapeList key.data) ++ "\"]"

/-- Decoder for a quoted-string body under the usual escape convention
(`\x` stands for `x`); used to state the round-trip part of the path
builder claim. -/
def unescapeList : List Char → List Char
  | [] => []
  | c :: rest =>
      if c = '\\' then
        match rest with
        | [] => []
        | c2 :: rest2 => c2 :: unescapeList rest2
      else c :: unescapeList rest

/-! ## JSON values

The decoded document, as produced by `JSON.parse`: objects keep insertion
order of their keys, arrays keep index order.  Arrays and object field
lists are separate inductives so that the graph construction below is
structural (and hence evaluates). -/

mutual
inductive JsonValue where
  | null : JsonValue
  | bool : Bool → JsonValue
  | num : Int → JsonValue
  | str : String → JsonValue
  | arr : JsonArray → JsonValue
  | obj : JsonFields → JsonValue

inductive JsonArray where
  | nil : JsonArray
  | cons : JsonValue → JsonArray → JsonArray

inductive JsonFields where
  | fnil : JsonFields
  | fcons : String → JsonValue → JsonFields → JsonFields
end

/-- `getDataType(value) === 'object' || getDataType(value) === 'array'`:
the node is expandable exactly for objects and arrays. -/
def isExpandable : JsonValue → Bool
  | .arr _ => true
  | .obj _ => true
  | _ => false

/-- `value === null` on the decoded value. -/
def isNull : JsonValue → Bool
  | .null => true
  | _ => false

/-- Conversion helper for writing concrete documents. -/
def JsonArray.ofList : List JsonValue → JsonArray
  | [] => .nil
  | v :: rest => .cons v (JsonArray.ofList rest)

/-! ## Initial expansion pass (`GraphNode`, lines 111-121 and 253-274)

The `useState` initializer runs once per mounted node, in React render
order (pre-order: a parent renders before its children).  Children are
mounted only under an expanded expandable parent, and only the first
`visibleItems` (initially 50) of them (`keys.slice(0, visibleItems)`).
`buildNode` returns the mount-order trace of `(isExpandable, isExpanded)`
pairs of all mounted nodes together with the remaining budget. -/

/-- The `useState(50)` pagination default (`visibleItems`). -/
def pageSize : Nat := 50

/-- The `{ budget: 50 }` expansion config created per document. -/
def initialBudget : Nat := 50

/-- The `isExpanded` `useState` initializer: root is always expanded;
other nodes expand exactly when expandable and budget remains. -/
def initExpanded (depth : Nat) (expandable : Bool) (budget : Nat) : Bool :=
  if depth = 0 then true else expandable && decide (0 < budget)

mutual
/-- Mount one node: record its `(isExpandable, isExpanded)` pair, then, if
it is an expanded expandable node, mount its first `pageSize` children. -/
def buildNode (v : JsonValue) (depth budget : Nat) : List (Bool × Bool) × Nat :=
  match v with
  | .arr xs =>
      if depth = 0 then
        let r := buildArr xs pageSize (depth + 1) budget
        ((true, true) :: r.1, r.2)
      else if 0 < budget then
        let r := buildArr xs pageSize (depth + 1) (budget - 1)
        ((true, true) :: r.1, r.2)
      else ([(true, false)], budget)
  | .obj fs =>
      if depth = 0 then
        let r := buildObj fs pageSize (depth + 1) budget
        ((true, true) :: r.1, r.2)
      else if 0 < budget then
        let r := buildObj fs pageSize (depth + 1) (budget - 1)
        ((true, true) :: r.1, r.2)
      else ([(true, false)], budget)
  | _ => ([(false, decide (depth = 0))], budget)

/-- Mount the first `fuel` items of an array, threading the budget. -/
def buildArr (xs : JsonArray) (fuel depth budget : Nat) : List (Bool × Bool) × Nat :=
  match xs, fuel with
  | .nil, _ => ([], budget)
  | .cons _ _, 0 => ([], budget)
  | .cons v rest, n + 1 =>
      let r1 := buildNode v depth budget
      let r2 := buildArr rest n depth r1.2
      (r1.1 ++ r2.1, r2.2)

/-- Mount the first `fuel` fields of an object, threading the budget. -/
def buildObj (fs : JsonFields) (fuel depth budget : Nat) : List (Bool × Bool) × Nat :=
  match fs, fuel with
  | .fnil, _ => ([], budget)
  | .fcons _ _ _, 0 => ([], budget)
  | .fcons _ v rest, n + 1 =>
      let r1 := buildNode v depth budget
      let r2 := buildObj rest n depth r1.2
      (r1.1 ++ r2.1, r2.2)
end

mutual
/-- Number of expandable nodes in a value, the value itself included —
the `traverse` count of `JsonGraphView` (lines 403-412). -/
def expandableCount : JsonValue → Nat
  | .arr xs => 1 + expandableCountArr xs
  | .obj fs => 1 + expandableCountObj fs
  | _ => 0

def expandableCountArr : JsonArray → Nat
  | .nil => 0
  | .cons v rest => expandableCount v + expandableCountArr rest

def expandableCountObj : JsonFields → Nat
  | .fnil => 0
  | .fcons _ v rest => expandableCount v + expandableCountObj rest
end

/-- Number of non-root expandable nodes of the whole document, in the
claim's sense (full document, ignoring mounting and pagination). -/
def nonRootExpandableCount : JsonValue → Nat
  | .arr xs => expandableCountArr xs
  | .obj fs => expandableCountObj fs
  | _ => 0

/-- Counterexample document for the initial-expansion claim: an array of
50 scalars followed by one (expandable) empty object. -/
def doc51 : JsonValue :=
  .arr (JsonArray.ofList (List.replicate 50 JsonValue.null ++ [JsonValue.obj .fnil]))

/-! ## Per-node expand/collapse state machine
(`handleToggle` lines 152-155, `globalAction` effect lines 124-131) -/

/-- One user-visible action on a node: a click on its card, or one of the
two bulk buttons. -/
inductive NodeAction where
  | toggle
  | gExpand
  | gCollapse
deriving DecidableEq, Repr

/-- Effect of one action on a node's `isExpanded` flag.  A click toggles
unconditionally (the click handler is attached only to expandable nodes);
the bulk expand signal expands expandable nodes; the bulk collapse signal
collapses every node except the root (`if (depth !== 0)`). -/
def nodeStep (depth : Nat) (expandable : Bool) (e : Bool) : NodeAction → Bool
  | .toggle => if expandable then !e else e
  | .gExpand => if expandable then true else e
  | .gCollapse => if depth ≠ 0 then false else e

/-- Run a sequence of actions on one node's flag. -/
def runNodeActions (depth : Nat) (expandable : Bool) (e : Bool)
    (as : List NodeAction) : Bool :=
  as.foldl (nodeStep depth expandable) e

/-! ## Search match predicate (`isMatch`, lines 96-109) -/

/-- Per-character lowercasing, the model of `toLowerCase()`. -/
def lowerStr (s : String) : String :=
  ⟨s.data.map Char.toLower⟩

/-- `startsWithL pat l` is true when `pat` is an initial run of `l`. -/
def startsWithL : List Char → List Char → Bool
  | [], _ => true
  | _ :: _, [] => false
  | a :: as, b :: bs => a = b && startsWithL as bs

/-- `hasSubstr pat hay`: the model of `hay.includes(pat)`. -/
def hasSubstr (pat : List Char) : List Char → Bool
  | [] => pat.isEmpty
  | c :: t => startsWithL pat (c :: t) || hasSubstr pat t

/-- `String(value)` on a scalar value (the source applies it only to
non-expandable values). -/
def scalarString : JsonValue → String
  | .str s => s
  | .num n => toString n
  | .bool b => if b then "true" else "false"
  | .null => "null"
  | .arr _ => ""
  | .obj _ => ""

/-- The `name && name.toLowerCase().includes(term)` check: `name` absent
(root) or empty is falsy and never matches. -/
def nameHit (name : Option String) (term : String) : Bool :=
  match name with
  | some n => !n.data.isEmpty && hasSubstr term.data (lowerStr n).data
  | none => false

/-- `isMatch` of the source: empty query never matches; otherwise match on
the lowercased name, or — for non-expandable, non-null values — on the
lowercased `String(value)`. -/
def isMatch (name : Option String) (v : JsonValue) (searchTerm : String) : Bool :=
  if searchTerm = "" then false
  else
    let term := lowerStr searchTerm
    nameHit name term
      || (!isExpandable v && !isNull v
            && hasSubstr term.data (lowerStr (scalarString v)).data)

/-- The match predicate as the claim words it: case-insensitive substring
test against the display name, or — for non-expandable nodes, the null
variant included — against the scalar value's string form. -/
def specIsMatchClaim (name : Option String) (v : JsonValue) (query : String) : Bool :=
  let q := lowerStr query
  (match name with
   | some n => hasSubstr q.data (lowerStr n).data
   | none => false)
    || (!isExpandable v && hasSubstr q.data (lowerStr (scalarString v)).data)

/-- The amended contract: as the claim, but the null variant is excluded
from value matching (null nodes can match only on their key name). -/
def specIsMatchAmended (name : Option String) (v : JsonValue) (query : String) : Bool :=
  if query = "" then false
  else
    let q := lowerStr query
    (match name with
     | some n => hasSubstr q.data (lowerStr n).data
     | none => false)
      || (!isExpandable v && !isNull v
            && hasSubstr q.data (lowerStr (scalarString v)).data)

/-! ## Viewport controller (`JsonGraphView`, lines 372-651)

Machine floats are modelled by exact rationals. -/

/-- Viewport state: `scale` plus the translation `position`. -/
structure Viewport where
  scale : ℚ
  x : ℚ
  y : ℚ
deriving DecidableEq, Repr

/-- `useState(1)` and `useState({ x: 40, y: 40 })`. -/
def initViewport : Viewport := ⟨1, 40, 40⟩

/-- Lower clamp `0.3` of the zoom handlers. -/
def minScale : ℚ := 3 / 10

/-- Upper clamp `3` of the zoom handlers. -/
def maxScale : ℚ := 3

/-- `handleWheel`: focal-point zoom at the mouse position with
`delta = -deltaY * 0.001` and the scale clamped to `[0.3, 3]`. -/
def handleWheel (vp : Viewport) (mouseX mouseY deltaY : ℚ) : Viewport :=
  let delta := -deltaY * (1 / 1000)
  let newScale := min (max (vp.scale + delta) minScale) maxScale
  let scaleRatio := newScale / vp.scale
  { scale := newScale
    x := mouseX - (mouseX - vp.x) * scaleRatio
    y := mouseY - (mouseY - vp.y) * scaleRatio }

/-- `handleZoomIn`: `Math.min(prev + 0.1, 3)`, position unchanged. -/
def handleZoomIn (vp : Viewport) : Viewport :=
  { vp with scale := min (vp.scale + 1 / 10) maxScale }

/-- `handleZoomOut`: `Math.max(prev - 0.1, 0.3)`, position unchanged. -/
def handleZoomOut (vp : Viewport) : Viewport :=
  { vp with scale := max (vp.scale - 1 / 10) minScale }

/-- `handleReset`: scale 1, position (40, 40). -/
def handleReset : Viewport := ⟨1, 40, 40⟩

/-- `handleFitScreen`: axis scales `(container - 80) / content`, overall
scale `Math.min(scaleX, scaleY, 1)` — no lower clamp — then centering. -/
def handleFitScreen (containerW containerH contentW contentH : ℚ) : Viewport :=
  let scaleX := (containerW - 80) / contentW
  let scaleY := (containerH - 80) / contentH
  let newScale := min (min scaleX scaleY) 1
  { scale := newScale
    x := (containerW - contentW * newScale) / 2
    y := (containerH - contentH * newScale) / 2 }

/-- Mouse/touch panning: add the movement delta to the position. -/
def handlePan (vp : Viewport) (dx dy : ℚ) : Viewport :=
  { vp with x := vp.x + dx, y := vp.y + dy }

/-- `focusNode`: keep the current scale and center the node's screen
center in the container. -/
def focusNode (vp : Viewport) (containerLeft containerTop containerW containerH
    nodeCenterX nodeCenterY : ℚ) : Viewport :=
  let contentScreenLeft := containerLeft + vp.x
  let contentScreenTop := containerTop + vp.y
  let nodeUnscaledX := (nodeCenterX - contentScreenLeft) / vp.scale
  let nodeUnscaledY := (nodeCenterY - contentScreenTop) / vp.scale
  { scale := vp.scale
    x := containerW / 2 - nodeUnscaledX * vp.scale
    y := containerH / 2 - nodeUnscaledY * vp.scale }

/-- Screen position of a content-space point under the
`translate(position) scale(scale)` transform (origin top-left). -/
def contentToScreen (vp : Viewport) (c : ℚ × ℚ) : ℚ × ℚ :=
  (vp.x + vp.scale * c.1, vp.y + vp.scale * c.2)

/-- Inverse conversion: the content-space point under a screen point. -/
def screenToContent (vp : Viewport) (p : ℚ × ℚ) : ℚ × ℚ :=
  ((p.1 - vp.x) / vp.scale, (p.2 - vp.y) / vp.scale)

/-- One viewport operation of the claim's list. -/
inductive ViewOp where
  | wheel (mouseX mouseY deltaY : ℚ)
  | zoomIn
  | zoomOut
  | reset
  | fit (containerW containerH contentW contentH : ℚ)
  | pan (dx dy : ℚ)
  | focus (containerLeft containerTop containerW containerH cx cy : ℚ)

/-- Whether an operation is the fit-to-content button. -/
def ViewOp.isFit : ViewOp → Bool
  | .fit _ _ _ _ => true
  | _ => false

/-- Apply one viewport operation. -/
def viewStep (vp : Viewport) : ViewOp → Viewport
  | .wheel mx my dy => handleWheel vp mx my dy
  | .zoomIn => handleZoomIn vp
  | .zoomOut => handleZoomOut vp
  | .reset => handleReset
  | .fit cw ch w h => handleFitScreen cw ch w h
  | .pan dx dy => handlePan vp dx dy
  | .focus cl ct cw ch cx cy => focusNode vp cl ct cw ch cx cy

/-- Apply a sequence of viewport operations. -/
def applyViewOps (ops : List ViewOp) (vp : Viewport) : Viewport :=
  ops.foldl viewStep vp

/-! ## Cyclic search-match navigation
(`findAndFocusMatch` lines 463-477, trigger effect lines 491-496) -/

/-- The match cursor (`matchIndexRef`) together with the viewport the
focus operation drives. -/
structure SearchNavState where
  cursor : Nat
  vp : Viewport
deriving DecidableEq, Repr

/-- `findAndFocusMatch(index)`: with no matches, return untouched (before
any cursor update or focus); otherwise set the cursor to
`index % matches.length` and focus that match's center. -/
def findAndFocusMatch (matchCenters : List (ℚ × ℚ))
    (containerLeft containerTop containerW containerH : ℚ)
    (idx : Nat) (s : SearchNavState) : SearchNavState :=
  if matchCenters.length = 0 then s
  else
    let safe := idx % matchCenters.length
    let c := matchCenters.getD safe (0, 0)
    { cursor := safe
      vp := focusNode s.vp containerLeft containerTop containerW containerH c.1 c.2 }

/-- One "next match" trigger: `findAndFocusMatch(matchIndexRef + 1)`. -/
def nextMatchTrigger (matchCenters : List (ℚ × ℚ))
    (containerLeft containerTop containerW containerH : ℚ)
    (s : SearchNavState) : SearchNavState :=
  findAndFocusMatch matchCenters containerLeft containerTop containerW containerH
    (s.cursor + 1) s

/-! ## Per-node pagination
(`visibleItems` state lines 133-139, `handleLoadMore` lines 164-167) -/

/-- `setVisibleItems(prev => prev + 50)`. -/
def handleLoadMore (visibleItems : Nat) : Nat := visibleItems + 50

/-- `keys.slice(0, visibleItems)`, rendered only when the node is
expanded. -/
def renderedChildren (keys : List String) (visibleItems : Nat)
    (expanded : Bool) : List String :=
  if expanded then keys.take visibleItems else []

/-- A "show more" click on node `i` updates only that node's
`visibleItems` state (per-node `useState`). -/
def clickLoadMoreAt (states : Nat → Nat) (i : Nat) : Nat → Nat :=
  fun j => if j = i then handleLoadMore (states j) else states j

/-! ## Parse boundary (`JsonGraphView`, lines 399-422 and 526-540) -/

/-- The rendered output: the dedicated error placeholder, or a graph
whose payload is the mounted-node trace. -/
inductive ViewOutput where
  | errorPlaceholder : ViewOutput
  | graph : List (Bool × Bool) → ViewOutput
deriving DecidableEq

/-- `parsedData`: the catch branch stores JS `null`; a successful parse
stores the decoded value — which is itself JS `null` for the document
`null`, so the two are indistinguishable in the stored field.  `none`
models the stored JS `null`. -/
def parsedData : Except String JsonValue → Option JsonValue
  | .error _ => none
  | .ok v => if isNull v then none else some v

/-- The component's render split: `parsedData === null` renders the
"Invalid JSON" placeholder, anything else renders the graph built with a
fresh budget. -/
def jsonGraphView (parseResult : Except String JsonValue) : ViewOutput :=
  match parsedData parseResult with
  | none => .errorPlaceholder
  | some d => .graph (buildNode d 0 initialBudget).1

/-- Nodes shown by an output; the placeholder shows none. -/
def renderedNodes : ViewOutput → List (Bool × Bool)
  | .errorPlaceholder => []
  | .graph tr => tr

/-! ## Budget/trace specification used by the expansion theorems -/

/-- What the budget pass does to a mount-order trace: among the mounted
expandable nodes (in mount order) the first `min budget K` are expanded
and the rest collapsed, and the remaining budget is the old budget minus
the number of nodes expanded. -/
def budgetTraceSpec (budget : Nat) (tr : List (Bool × Bool)) (budget' : Nat) : Prop :=
  (tr.filter (·.1)).map (·.2)
      = List.replicate (min budget (tr.filter (·.1)).length) true
        ++ List.replicate ((tr.filter (·.1)).length - budget) false
    ∧ budget' = budget - min budget (tr.filter (·.1)).length

/-! # Theorems -/

theorem btSpec_nil (b : Nat) : budgetTraceSpec b [] b := by
  simp [budgetTraceSpec]

theorem btSpec_scalar (b : Nat) (e : Bool) : budgetTraceSpec b [(false, e)] b := by
  simp [budgetTraceSpec]

theorem btSpec_exhausted : budgetTraceSpec 0 [(true, false)] 0 := by
  simp [budgetTraceSpec]

theorem btSpec_consume {b b' : Nat} {tr : List (Bool × Bool)}
    (h : budgetTraceSpec b tr b') :
    budgetTraceSpec (b + 1) ((true, true) :: tr) b' := by
  obtain ⟨he, hb⟩ := h
  have hcons : (((true, true) :: tr).filter (·.1)) = (true, true) :: tr.filter (·.1) := by
    simp
  unfold budgetTraceSpec
  rw [hcons]
  constructor
  · rw [List.map_cons, he, List.length_cons,
      show min (b + 1) ((tr.filter (·.1)).length + 1)
          = min b (tr.filter (·.1)).length + 1 from by omega,
      List.replicate_succ, List.cons_append,
      show (tr.filter (·.1)).length + 1 - (b + 1)
          = (tr.filter (·.1)).length - b from by omega]
  · rw [List.length_cons]
    omega

theorem btSpec_append {b b1 b2 : Nat} {t1 t2 : List (Bool × Bool)}
    (h1 : budgetTraceSpec b t1 b1) (h2 : budgetTraceSpec b1 t2 b2) :
    budgetTraceSpec b (t1 ++ t2) b2 := by
  obtain ⟨e1, r1⟩ := h1
  obtain ⟨e2, r2⟩ := h2
  unfold budgetTraceSpec
  rw [List.filter_append, List.length_append, List.map_append, e1, e2]
  set K1 := (t1.filter (·.1)).length with hK1
  set K2 := (t2.filter (·.1)).length with hK2
  constructor
  · rcases Nat.le_total b K1 with hb | hb
    · have hb1 : b1 = 0 := by omega
      rw [hb1,
        show min b K1 = b from by omega,
        show min 0 K2 = 0 from by omega,
        show min b (K1 + K2) = b from by omega,
        show K1 + K2 - b = K1 - b + K2 from by omega,
        List.replicate_zero, List.nil_append, Nat.sub_zero,
        List.replicate_add, List.append_assoc]
    · have hb1 : b1 = b - K1 := by omega
      rw [hb1,
        show min b K1 = K1 from by omega,
        show K1 - b = 0 from by omega,
        show min b (K1 + K2) = K1 + min (b - K1) K2 from by omega,
        show K1 + K2 - b = K2 - (b - K1) from by omega,
        List.replicate_zero, List.append_nil,
        List.replicate_add, List.append_assoc]
  · omega

mutual
theorem buildNode_spec (v : JsonValue) (d b : Nat) (hd : d ≠ 0) :
    budgetTraceSpec b (buildNode v d b).1 (buildNode v d b).2 := by
  cases v with
  | arr xs =>
      by_cases hb : 0 < b
      · have h2 := btSpec_consume (buildArr_spec xs pageSize (d + 1) (b - 1) (by omega))
        rw [Nat.sub_add_cancel hb] at h2
        simpa [buildNode, hd, hb] using h2
      · have hb0 : b = 0 := by omega
        subst hb0
        simpa [buildNode, hd] using btSpec_exhausted
  | obj fs =>
      by_cases hb : 0 < b
      · have h2 := btSpec_consume (buildObj_spec fs pageSize (d + 1) (b - 1) (by omega))
        rw [Nat.sub_add_cancel hb] at h2
        simpa [buildNode, hd, hb] using h2
      · have hb0 : b = 0 := by omega
        subst hb0
        simpa [buildNode, hd] using btSpec_exhausted
  | null => simpa [buildNode, hd] using btSpec_scalar b false
  | bool x => simpa [buildNode, hd] using btSpec_scalar b false
  | num x => simpa [buildNode, hd] using btSpec_scalar b false
  | str x => simpa [buildNode, hd] using btSpec_scalar b false

theorem buildArr_spec (xs : JsonArray) (f d b : Nat) (hd : d ≠ 0) :
    budgetTraceSpec b (buildArr xs f d b).1 (buildArr xs f d b).2 := by
  cases xs with
  | nil => simpa [buildArr] using btSpec_nil b
  | cons v rest =>
      cases f with
      | zero => simpa [buildArr] using btSpec_nil b
      | succ n =>
          have h1 := buildNode_spec v d b hd
          have h2 := buildArr_spec rest n d (buildNode v d b).2 hd
          simpa [buildArr] using btSpec_append h1 h2

theorem buildObj_spec (fs : JsonFields) (f d b : Nat) (hd : d ≠ 0) :
    budgetTraceSpec b (buildObj fs f d b).1 (buildObj fs f d b).2 := by
  cases fs with
  | fnil => simpa [buildObj] using btSpec_nil b
  | fcons k v rest =>
      cases f with
      | zero => simpa [buildObj] using btSpec_nil b
      | succ n =>
          have h1 := buildNode_spec v d b hd
          have h2 := buildObj_spec rest n d (buildNode v d b).2 hd
          simpa [buildObj] using btSpec_append h1 h2
end

theorem buildNode_root_spec (v : JsonValue) (b : Nat) :
    (buildNode v 0 b).1.head? = some (isExpandable v, true) ∧
    budgetTraceSpec b ((buildNode v 0 b).1.drop 1) (buildNode v 0 b).2 := by
  cases v with
  | arr xs =>
      refine ⟨by simp [buildNode, isExpandable], ?_⟩
      simpa [buildNode] using buildArr_spec xs pageSize 1 b (by omega)
  | obj fs =>
      refine ⟨by simp [buildNode, isExpandable], ?_⟩
      simpa [buildNode] using buildObj_spec fs pageSize 1 b (by omega)
  | null => exact ⟨by simp [buildNode, isExpandable], by simpa [buildNode] using btSpec_nil b⟩
  | bool x => exact ⟨by simp [buildNode, isExpandable], by simpa [buildNode] using btSpec_nil b⟩
  | num x => exact ⟨by simp [buildNode, isExpandable], by simpa [buildNode] using btSpec_nil b⟩
  | str x => exact ⟨by simp [buildNode, isExpandable], by simpa [buildNode] using btSpec_nil b⟩

/-- C1 (counterexample): for the 51-element array document whose only
expandable non-root node (an empty object) sits at index 50 — past the
`visibleItems = 50` pagination cutoff — the claim predicts
`min(B, N) = min(50, 1) = 1` non-root expandable node starting expanded,
but the initial render mounts no non-root expandable node at all (the
object is never mounted, so nothing starts expanded). -/
theorem c1_initial_expansion_counterexample :
    ((buildNode doc51 0 initialBudget).1.drop 1).filter (·.1) = []
      ∧ nonRootExpandableCount doc51 = 1
      ∧ min initialBudget (nonRootExpandableCount doc51) = 1 := by
  refine ⟨by decide, by decide, by decide⟩

/-- C1 (amended): the root always mounts expanded; among the non-root
nodes actually mounted by the initial pass (children of expanded nodes
only, first 50 per node, in document order), the expandable ones are
expanded in mount order until the budget runs out: their expanded flags
are `min budget M` times `true` followed by `M - budget` times `false`,
where `M` is the number of mounted non-root expandable nodes.  Nodes
beyond a pagination cutoff or below a collapsed node are not mounted and
consume no budget. -/
theorem c1_initial_expansion_amended (v : JsonValue) (b : Nat) :
    (buildNode v 0 b).1.head? = some (isExpandable v, true)
      ∧ ((((buildNode v 0 b).1.drop 1).filter (·.1)).map (·.2)
          = List.replicate
              (min b ((((buildNode v 0 b).1.drop 1).filter (·.1)).length)) true
            ++ List.replicate
              (((((buildNode v 0 b).1.drop 1).filter (·.1)).length) - b) false) :=
  ⟨(buildNode_root_spec v b).1, (buildNode_root_spec v b).2.1⟩

/-- C2 (counterexample): the source escapes only `"`, not `\`.  For the
single-backslash key the bracket-quoted form the spec demands (with the
backslash escaped) differs from what `getChildPath` produces. -/
theorem c2_path_builder_counterexample :
    getChildPath "$" "\\" DataType.object ≠ specChildPathObject "$" "\\" := by
  decide

theorem unescape_escapeQuotes (l : List Char) (hnb : '\\' ∉ l) :
    unescapeList (escapeQuotesList l) = l := by
  induction l with
  | nil => rfl
  | cons c rest ih =>
      have hc : c ≠ '\\' := by
        intro hcc
        exact hnb (by rw [hcc]; exact List.mem_cons_self _ _)
      have hrest : '\\' ∉ rest := by
        intro hm
        exact hnb (List.mem_cons_of_mem _ hm)
      by_cases hq : c = '"'
      · subst hq
        simp [escapeQuotesList, unescapeList, ih hrest]
      · simp only [escapeQuotesList, if_neg hq]
        rw [unescapeList.eq_def]
        simp only [if_neg hc]
        exact congrArg (c :: ·) (ih hrest)

/-- C2 (amended): for an array parent the child path is
`parent[key]`; for an object parent an identifier key is appended with a
dot, and any other key is bracket-quoted with only `"` escaped; the
quoted body decodes back to the key whenever the key contains no
backslash. -/
theorem c2_path_builder_amended (p k : String)
    (hid : isIdentifier k = false) (hnb : '\\' ∉ k.data) :
    getChildPath p k DataType.array = p ++ "[" ++ k ++ "]"
      ∧ getChildPath p k DataType.object = p ++ "[\"" ++ escapeQuotes k ++ "\"]"
      ∧ unescapeList (escapeQuotes k).data = k.data
      ∧ (∀ p' k', isIdentifier k' = true →
          getChildPath p' k' DataType.object = p' ++ "." ++ k') := by
  refine ⟨by simp [getChildPath], ?_, ?_, ?_⟩
  · simp [getChildPath, hid]
  · exact unescape_escapeQuotes k.data hnb
  · intro p' k' hk'
    simp [getChildPath, hk']

/-- C2 (witness). -/
theorem c2_path_builder_witness :
    getChildPath "$" "a b" DataType.array = "$" ++ "[" ++ "a b" ++ "]"
      ∧ getChildPath "$" "a b" DataType.object = "$" ++ "[\"" ++ escapeQuotes "a b" ++ "\"]"
      ∧ unescapeList (escapeQuotes "a b").data = "a b".data
      ∧ (∀ p' k', isIdentifier k' = true →
          getChildPath p' k' DataType.object = p' ++ "." ++ k') :=
  c2_path_builder_amended "$" "a b" (by decide) (by decide)

/-- C3 (counterexample): the click handler toggles without a root guard,
so a single click on the (expandable, initially expanded) root card sets
its expanded flag to `false` — the claimed invariant fails. -/
theorem c3_root_invariant_counterexample :
    runNodeActions 0 true (initExpanded 0 true initialBudget) [NodeAction.toggle]
      = false := by
  decide

/-- C3 (amended): the root starts expanded and no sequence of bulk
actions (expand all / collapse all) ever collapses it — only a direct
click on the root card can. -/
theorem c3_root_invariant_amended (expandable : Bool) (budget : Nat)
    (as : List NodeAction) (h : NodeAction.toggle ∉ as) :
    runNodeActions 0 expandable (initExpanded 0 expandable budget) as = true := by
  have hinit : initExpanded 0 expandable budget = true := by simp [initExpanded]
  rw [hinit]
  induction as with
  | nil => rfl
  | cons a rest ih =>
      have ha : a ≠ NodeAction.toggle := by
        intro hc
        exact h (hc ▸ List.mem_cons_self a rest)
      have hrest : NodeAction.toggle ∉ rest := by
        intro hm
        exact h (List.mem_cons_of_mem _ hm)
      have hstep : nodeStep 0 expandable true a = true := by
        cases a with
        | toggle => exact absurd rfl ha
        | gExpand => cases expandable <;> simp [nodeStep]
        | gCollapse => simp [nodeStep]
      show List.foldl (nodeStep 0 expandable) (nodeStep 0 expandable true a) rest = true
      rw [hstep]
      exact ih hrest

/-- C3 (witness). -/
theorem c3_root_invariant_witness :
    runNodeActions 0 true (initExpanded 0 true 50)
      [NodeAction.gCollapse, NodeAction.gExpand, NodeAction.gCollapse] = true :=
  c3_root_invariant_amended true 50 _ (by decide)

/-- C4 (counterexample): fit-to-content has no lower clamp.  From the
default viewport, one fit of a 10000×100 content into an 800×800
container sets the scale to `720/10000 = 0.072 < 0.3`, leaving the
claimed range. -/
theorem c4_scale_range_counterexample :
    (applyViewOps [ViewOp.fit 800 800 10000 100] initViewport).scale < minScale := by
  norm_num [applyViewOps, viewStep, handleFitScreen, initViewport, minScale,
    List.foldl]

/-- C4 (amended): after any sequence of viewport operations that does not
use fit-to-content, the scale stays in `[0.3, 3]`; fit-to-content can
leave the range below (its result is only capped above by 1). -/
theorem c4_scale_range_amended (ops : List ViewOp)
    (h : ∀ op ∈ ops, op.isFit = false) :
    minScale ≤ (applyViewOps ops initViewport).scale
      ∧ (applyViewOps ops initViewport).scale ≤ maxScale := by
  have hstep : ∀ (vp : Viewport) (op : ViewOp), op.isFit = false →
      minScale ≤ vp.scale → vp.scale ≤ maxScale →
      minScale ≤ (viewStep vp op).scale ∧ (viewStep vp op).scale ≤ maxScale := by
    intro vp op hop h1 h2
    cases op with
    | wheel mx my dy =>
        constructor
        · exact le_min (le_trans (le_max_right _ _) (le_refl _)) (by norm_num [minScale, maxScale])
        · exact min_le_right _ _
    | zoomIn =>
        constructor
        · refine le_min ?_ (by norm_num [minScale, maxScale])
          have : (0 : ℚ) ≤ 1 / 10 := by norm_num
          calc minScale ≤ vp.scale := h1
            _ ≤ vp.scale + 1 / 10 := by linarith
        · exact min_le_right _ _
    | zoomOut =>
        constructor
        · exact le_max_right _ _
        · refine max_le ?_ (by norm_num [minScale, maxScale])
          calc vp.scale - 1 / 10 ≤ vp.scale := by linarith
            _ ≤ maxScale := h2
    | reset => constructor <;> norm_num [viewStep, handleReset, minScale, maxScale]
    | fit cw ch w hh => simp [ViewOp.isFit] at hop
    | pan dx dy => exact ⟨h1, h2⟩
    | focus cl ct cw ch cx cy => exact ⟨h1, h2⟩
  have hgen : ∀ (l : List ViewOp) (vp : Viewport), (∀ op ∈ l, op.isFit = false) →
      minScale ≤ vp.scale → vp.scale ≤ maxScale →
      minScale ≤ (applyViewOps l vp).scale ∧ (applyViewOps l vp).scale ≤ maxScale := by
    intro l
    induction l with
    | nil => intro vp _ h1 h2; exact ⟨h1, h2⟩
    | cons op rest ih =>
        intro vp hl h1 h2
        have hop : op.isFit = false := hl op (List.mem_cons_self op rest)
        have hrest : ∀ o ∈ rest, o.isFit = false := by
          intro o ho
          exact hl o (List.mem_cons_of_mem _ ho)
        have hs := hstep vp op hop h1 h2
        exact ih (viewStep vp op) hrest hs.1 hs.2
  exact hgen ops initViewport h (by norm_num [initViewport, minScale])
    (by norm_num [initViewport, maxScale])

/-- C4 (witness). -/
theorem c4_scale_range_witness :
    minScale ≤ (applyViewOps [ViewOp.wheel 100 100 500, ViewOp.zoomOut]
        initViewport).scale
      ∧ (applyViewOps [ViewOp.wheel 100 100 500, ViewOp.zoomOut]
        initViewport).scale ≤ maxScale :=
  c4_scale_range_amended [ViewOp.wheel 100 100 500, ViewOp.zoomOut] (by
    intro op hop
    simp only [List.mem_cons, List.mem_singleton] at hop
    rcases hop with h | h | h
    · rw [h]; rfl
    · rw [h]; rfl
    · cases h)

theorem string_data_ne_nil {q : String} (h : q ≠ "") : q.data ≠ [] :=
  fun hd => h (congrArg String.mk hd)

/-- C5 (counterexample): a node holding the null value, searched with the
query "null": the claim says the null variant's string form participates
in value matching, but the source's `value !== null` guard excludes it,
so the node does not match. -/
theorem c5_match_counterexample :
    isMatch none JsonValue.null "null" = false
      ∧ specIsMatchClaim none JsonValue.null "null" = true := by
  refine ⟨by decide, by decide⟩

/-- C5 (amended): for every node and non-empty query, the node matches
iff its lowercased name contains the lowercased query, or the node is not
expandable, its value is not the null variant, and the lowercased string
form of its scalar value contains the lowercased query.  (Null-valued
nodes match only on their key name; expandable nodes never match on
content.) -/
theorem c5_match_amended (name : Option String) (v : JsonValue) (q : String)
    (h : q ≠ "") :
    isMatch name v q = specIsMatchAmended name v q := by
  cases name with
  | none => rfl
  | some n =>
      cases hn : n.data with
      | nil =>
          have hqd : q.data ≠ [] := string_data_ne_nil h
          have hq : hasSubstr (lowerStr q).data [] = false := by
            cases hd : q.data with
            | nil => exact absurd hd hqd
            | cons a l => simp [hasSubstr, lowerStr, hd]
          have hl : (lowerStr n).data = [] := by simp [lowerStr, hn]
          simp [isMatch, specIsMatchAmended, nameHit, hn, hl, hq]
      | cons a l =>
          simp [isMatch, specIsMatchAmended, nameHit, hn]

/-- C5 (witness). -/
theorem c5_match_witness :
    isMatch (some "user") (JsonValue.str "Alice") "ali"
      = specIsMatchAmended (some "user") (JsonValue.str "Alice") "ali" :=
  c5_match_amended (some "user") (JsonValue.str "Alice") "ali" (by decide)

/-- C6: the wheel zoom clamps the new scale to `[0.3, 3]`, applies
exactly the claimed translation update, and — over exact arithmetic — the
content-space point that was under the mouse before the zoom is still
under the mouse after it. -/
theorem c6_focal_zoom (vp : Viewport) (mouseX mouseY deltaY : ℚ)
    (h1 : minScale ≤ vp.scale) (h2 : vp.scale ≤ maxScale) :
    (handleWheel vp mouseX mouseY deltaY).scale
        = min (max (vp.scale + -deltaY * (1 / 1000)) minScale) maxScale
      ∧ (handleWheel vp mouseX mouseY deltaY).x
          = mouseX - (mouseX - vp.x)
              * ((handleWheel vp mouseX mouseY deltaY).scale / vp.scale)
      ∧ (handleWheel vp mouseX mouseY deltaY).y
          = mouseY - (mouseY - vp.y)
              * ((handleWheel vp mouseX mouseY deltaY).scale / vp.scale)
      ∧ contentToScreen (handleWheel vp mouseX mouseY deltaY)
          (screenToContent vp (mouseX, mouseY)) = (mouseX, mouseY) := by
  have hs : vp.scale ≠ 0 := by
    have hpos : (0 : ℚ) < minScale := by norm_num [minScale]
    exact ne_of_gt (lt_of_lt_of_le hpos h1)
  refine ⟨rfl, rfl, rfl, ?_⟩
  unfold contentToScreen screenToContent handleWheel
  rw [Prod.ext_iff]
  constructor
  · show mouseX - (mouseX - vp.x) * _ + _ * ((mouseX - vp.x) / vp.scale) = mouseX
    field_simp
    ring
  · show mouseY - (mouseY - vp.y) * _ + _ * ((mouseY - vp.y) / vp.scale) = mouseY
    field_simp
    ring

/-- C6 (witness). -/
theorem c6_focal_zoom_witness :
    minScale ≤ initViewport.scale ∧ initViewport.scale ≤ maxScale
      ∧ contentToScreen (handleWheel initViewport 100 80 (-500))
          (screenToContent initViewport (100, 80)) = (100, 80) :=
  ⟨by norm_num [initViewport, minScale], by norm_num [initViewport, maxScale],
    (c6_focal_zoom initViewport 100 80 (-500)
      (by norm_num [initViewport, minScale])
      (by norm_num [initViewport, maxScale])).2.2.2⟩

/-- C7: with no rendered matches, a "next match" trigger leaves the whole
search/viewport state untouched; with `m > 0` matches it advances the
cursor to `(cursor + 1) % m`; with `m = 3` and cursor 0, three
consecutive triggers visit matches 1, 2, 0. -/
theorem c7_cyclic_navigation (matchCenters : List (ℚ × ℚ))
    (cl ct cw ch : ℚ) (s : SearchNavState) :
    (matchCenters.length = 0 →
        nextMatchTrigger matchCenters cl ct cw ch s = s)
      ∧ (0 < matchCenters.length →
          (nextMatchTrigger matchCenters cl ct cw ch s).cursor
            = (s.cursor + 1) % matchCenters.length)
      ∧ (matchCenters.length = 3 → s.cursor = 0 →
          ((nextMatchTrigger matchCenters cl ct cw ch s).cursor = 1
            ∧ (nextMatchTrigger matchCenters cl ct cw ch
                (nextMatchTrigger matchCenters cl ct cw ch s)).cursor = 2
            ∧ (nextMatchTrigger matchCenters cl ct cw ch
                (nextMatchTrigger matchCenters cl ct cw ch
                  (nextMatchTrigger matchCenters cl ct cw ch s))).cursor = 0)) := by
  refine ⟨?_, ?_, ?_⟩
  · intro h0
    simp [nextMatchTrigger, findAndFocusMatch, h0]
  · intro hpos
    have hne : ¬matchCenters.length = 0 := by omega
    simp [nextMatchTrigger, findAndFocusMatch, hne]
  · intro h3 hc
    have hne : ¬matchCenters.length = 0 := by omega
    have e1 : (nextMatchTrigger matchCenters cl ct cw ch s).cursor = 1 := by
      simp [nextMatchTrigger, findAndFocusMatch, hne, h3, hc]
    have e2 : (nextMatchTrigger matchCenters cl ct cw ch
        (nextMatchTrigger matchCenters cl ct cw ch s)).cursor = 2 := by
      simp [nextMatchTrigger, findAndFocusMatch, hne, h3, hc]
    have e3 : (nextMatchTrigger matchCenters cl ct cw ch
        (nextMatchTrigger matchCenters cl ct cw ch
          (nextMatchTrigger matchCenters cl ct cw ch s))).cursor = 0 := by
      simp [nextMatchTrigger, findAndFocusMatch, hne, h3, hc]
    exact ⟨e1, e2, e3⟩

/-- C7 (witness). -/
theorem c7_cyclic_navigation_witness :
    (nextMatchTrigger [(0, 0), (10, 10), (20, 20)] 0 0 800 600
        ⟨0, initViewport⟩).cursor = 1
      ∧ (nextMatchTrigger [(0, 0), (10, 10), (20, 20)] 0 0 800 600
          (nextMatchTrigger [(0, 0), (10, 10), (20, 20)] 0 0 800 600
            ⟨0, initViewport⟩)).cursor = 2
      ∧ (nextMatchTrigger [(0, 0), (10, 10), (20, 20)] 0 0 800 600
          (nextMatchTrigger [(0, 0), (10, 10), (20, 20)] 0 0 800 600
            (nextMatchTrigger [(0, 0), (10, 10), (20, 20)] 0 0 800 600
              ⟨0, initViewport⟩))).cursor = 0 :=
  (c7_cyclic_navigation [(0, 0), (10, 10), (20, 20)] 0 0 800 600
    ⟨0, initViewport⟩).2.2 rfl rfl

/-- C8: an expanded node with `K` children renders `min(K, 50)` of them
before any "show more" click and `min(K, 100)` after one; a click on node
`i` adds 50 to that node's `visibleItems` and leaves every other node's
untouched. -/
theorem c8_pagination (keys : List String) (states : Nat → Nat) (i j : Nat)
    (hj : j ≠ i) :
    (renderedChildren keys pageSize true).length = min keys.length pageSize
      ∧ (renderedChildren keys (handleLoadMore pageSize) true).length
          = min keys.length 100
      ∧ clickLoadMoreAt states i i = states i + 50
      ∧ clickLoadMoreAt states i j = states j := by
  refine ⟨?_, ?_, ?_, ?_⟩
  · simp [renderedChildren, Nat.min_comm]
  · simp [renderedChildren, handleLoadMore, pageSize, Nat.min_comm]
  · simp [clickLoadMoreAt, handleLoadMore]
  · simp [clickLoadMoreAt, hj]

/-- C8 (witness). -/
theorem c8_pagination_witness :
    (renderedChildren ["a", "b", "c"] pageSize true).length
        = min (["a", "b", "c"] : List String).length pageSize
      ∧ (renderedChildren ["a", "b", "c"] (handleLoadMore pageSize) true).length
          = min (["a", "b", "c"] : List String).length 100
      ∧ clickLoadMoreAt (fun _ => pageSize) 0 0 = (fun _ => pageSize) 0 + 50
      ∧ clickLoadMoreAt (fun _ => pageSize) 0 1 = (fun _ => pageSize) 1 :=
  c8_pagination ["a", "b", "c"] (fun _ => pageSize) 0 1 (by decide)

/-- C9: when the parse collaborator fails, the view renders the dedicated
error placeholder, shows no graph nodes at all, and (being a total
function into `ViewOutput`) surfaces no exception to its caller. -/
theorem c9_parse_failure_recovery (msg : String) :
    jsonGraphView (Except.error msg) = ViewOutput.errorPlaceholder
      ∧ renderedNodes (jsonGraphView (Except.error msg)) = [] :=
  ⟨rfl, rfl⟩

/-- C10: the error placeholder is rendered exactly when parsing threw or
the parsed value is the null variant — a valid `null` document is
indistinguishable from a parse failure at this interface. -/
theorem c10_null_root_placeholder (r : Except String JsonValue) :
    jsonGraphView r = ViewOutput.errorPlaceholder
      ↔ (∃ msg, r = Except.error msg) ∨ r = Except.ok JsonValue.null := by
  cases r with
  | error m => simp [jsonGraphView, parsedData]
  | ok v =>
      cases v with
      | null => simp [jsonGraphView, parsedData, isNull]
      | bool x => simp [jsonGraphView, parsedData, isNull]
      | num x => simp [jsonGraphView, parsedData, isNull]
      | str x => simp [jsonGraphView, parsedData, isNull]
      | arr xs => simp [jsonGraphView, parsedData, isNull]
      | obj fs => simp [jsonGraphView, parsedData, isNull]

end JsonForge
